import Mathlib

/-!
Verification of the interaction and animation core of the ANGL 3D product
viewer.  The definitions below are a shallow embedding of the viewer source
(the single-page `init` script): the scroll-driven context transition engine,
the hotspot annotation engine, the part grouping resolver, the pointer
interaction engine (hover and click-to-toggle), and the explode animator.

Numeric state that the source keeps in JS doubles is modelled with `ℚ`
where only field operations and comparisons occur (scroll positions, screen
coordinates), and with `ℝ` where square roots are taken
(vector normalization in the explode animator).
-/

namespace Angl

/-! ### String helpers

JS `String.prototype.includes` (substring test), used by the grouping
resolver and the hotspot fallback matcher. -/

/-- Prefix test on character lists. -/
def hasPrefixChars : List Char → List Char → Bool
  | [], _ => true
  | _ :: _, [] => false
  | a :: as, b :: bs => a == b && hasPrefixChars as bs

/-- Substring occurrence test on character lists. -/
def hasInfixChars : List Char → List Char → Bool
  | pat, [] => pat.isEmpty
  | pat, b :: bs => hasPrefixChars pat (b :: bs) || hasInfixChars pat bs

/-- JS `s.includes(pat)`. -/
def strIncludes (s pat : String) : Bool :=
  hasInfixChars pat.data s.data

/-! ### Context Transition Engine

The source defines an ordered list `contexts` of ten presentation presets;
only their names and count matter for the scroll-position state machine, so
the visual payload (colors, light parameters, exposure) is elided. -/

/-- Names of the ten aesthetic context presets, in source order. -/
def contextNames : List String :=
  ["Scandinavian", "Marble", "Minimal", "Walnut", "Steel",
   "Terracotta", "Noir", "Sage", "Blush", "Gallery"]

/-- `contexts.length` in the source. -/
def numContexts : ℕ := contextNames.length

/-- Scrolling one full page of 400 units of deltaY is one context transition. -/
def SCROLL_PER_CONTEXT : ℚ := 400

/-- The wheel handler: `scrollPosition = Math.max(0, Math.min(contexts.length - 1,
scrollPosition + e.deltaY / SCROLL_PER_CONTEXT))`. -/
def onScroll (scrollPosition deltaY : ℚ) : ℚ :=
  let delta := deltaY / SCROLL_PER_CONTEXT
  max 0 (min ((numContexts : ℚ) - 1) (scrollPosition + delta))

/-- The click handler of dot indicator `i`: `scrollPosition = i`.  Dots are
created only for valid context indices, hence the `Fin` domain. -/
def dotClick (i : Fin numContexts) : ℚ := (i : ℕ)

/-- `const fromIdx = Math.floor(scrollPosition)`. -/
def fromIdx (scrollPosition : ℚ) : ℤ := ⌊scrollPosition⌋

/-- `const toIdx = Math.min(fromIdx + 1, contexts.length - 1)`. -/
def toIdx (scrollPosition : ℚ) : ℤ :=
  min (fromIdx scrollPosition + 1) ((numContexts : ℤ) - 1)

/-- `const t = scrollPosition - fromIdx`, the fractional transition progress. -/
def fracT (scrollPosition : ℚ) : ℚ :=
  scrollPosition - fromIdx scrollPosition

/-- The per-frame render decision of `animate`: either the two-buffer curtain
compositing path (mid-transition) or the full-quality composer path applying
one preset. -/
inductive RenderPath where
  | composited (fromI toI : ℤ) (progress : ℚ)
  | fullQuality (applied : ℤ)
  deriving DecidableEq

/-- The branch `if (t > 0.001 && fromIdx !== toIdx)` of `animate`: composite
buffers A and B mid-transition, otherwise apply `contexts[fromIdx]` fully and
render through the composer. -/
def animateRenderPath (scrollPosition : ℚ) : RenderPath :=
  if fracT scrollPosition > 1/1000 ∧ fromIdx scrollPosition ≠ toIdx scrollPosition then
    .composited (fromIdx scrollPosition) (toIdx scrollPosition) (fracT scrollPosition)
  else
    .fullQuality (fromIdx scrollPosition)

/-- One scroll-position input: a wheel event or a dot-indicator click. -/
inductive ScrollInput where
  | wheel (deltaY : ℚ)
  | dot (i : Fin numContexts)

/-- Apply one input to the scroll position. -/
def stepScroll (pos : ℚ) : ScrollInput → ℚ
  | .wheel d => onScroll pos d
  | .dot i => dotClick i

/-- Run a sequence of inputs from the initial scroll position 0. -/
def runScroll (inputs : List ScrollInput) : ℚ :=
  inputs.foldl stepScroll 0

lemma onScroll_mem_range (pos delta : ℚ) :
    0 ≤ onScroll pos delta ∧ onScroll pos delta ≤ (numContexts : ℚ) - 1 := by
  unfold onScroll
  refine ⟨le_max_left _ _, max_le ?_ (min_le_left _ _)⟩
  norm_num [numContexts, contextNames]

lemma stepScroll_mem_range (pos : ℚ) (i : ScrollInput) :
    0 ≤ stepScroll pos i ∧ stepScroll pos i ≤ (numContexts : ℚ) - 1 := by
  cases i with
  | wheel d => exact onScroll_mem_range pos d
  | dot i =>
      have hi : (i : ℕ) < numContexts := i.isLt
      have hi9 : (i : ℕ) ≤ 9 := by
        have h10 : numContexts = 10 := rfl
        omega
      constructor
      · simp [stepScroll, dotClick]
      · simp only [stepScroll, dotClick]
        have hle : ((i : ℕ) : ℚ) ≤ 9 := by exact_mod_cast hi9
        have h9 : (numContexts : ℚ) - 1 = 9 := by norm_num [numContexts, contextNames]
        linarith

/-- C7: the continuous context scroll position always stays within
`[0, N-1]`: a single wheel event with arbitrarily large positive or negative
delta is clamped into range, and any sequence of wheel events and
dot-indicator jumps starting from position 0 keeps the position in range;
every input is processed (the handlers are total), none is rejected. -/
theorem scroll_position_always_clamped :
    (∀ pos delta : ℚ, 0 ≤ onScroll pos delta ∧ onScroll pos delta ≤ (numContexts : ℚ) - 1) ∧
    (∀ inputs : List ScrollInput, 0 ≤ runScroll inputs ∧ runScroll inputs ≤ (numContexts : ℚ) - 1) := by
  constructor
  · exact onScroll_mem_range
  · intro inputs
    suffices h : ∀ pos : ℚ, 0 ≤ pos → pos ≤ (numContexts : ℚ) - 1 →
        0 ≤ inputs.foldl stepScroll pos ∧ inputs.foldl stepScroll pos ≤ (numContexts : ℚ) - 1 by
      refine h 0 le_rfl ?_
      norm_num [numContexts, contextNames]
    induction inputs with
    | nil => intro pos h0 h1; exact ⟨h0, h1⟩
    | cons i rest ih =>
        intro pos _ _
        simpa using ih (stepScroll pos i) (stepScroll_mem_range pos i).1 (stepScroll_mem_range pos i).2

/-- C2 counterexample: after `onScroll(400)` from position 0 the position is
exactly 1, but `fromIndex` is 1 while `toIndex` is 2 — the claimed
`fromIndex == toIndex` is false at this concrete input. -/
theorem scroll_400_fromIdx_ne_toIdx :
    onScroll 0 400 = 1 ∧ fromIdx (onScroll 0 400) = 1 ∧ toIdx (onScroll 0 400) = 2 ∧
    fromIdx (onScroll 0 400) ≠ toIdx (onScroll 0 400) := by
  have h : onScroll 0 400 = 1 := by
    norm_num [onScroll, SCROLL_PER_CONTEXT, numContexts, contextNames]
  have hf : fromIdx (onScroll 0 400) = 1 := by simp [h, fromIdx]
  have ht : toIdx (onScroll 0 400) = 2 := by
    simp [toIdx, hf, numContexts, contextNames]
  exact ⟨h, hf, ht, by rw [hf, ht]; decide⟩

/-- C2 amended: with N = 10 presets and 400 scroll units per context, feeding
`onScroll(400)` from position 0 yields position exactly 1; on the next frame
`fromIndex = 1`, `toIndex = 2`, the fractional progress is 0, so the settled
branch is taken (progress is below the 0.001 threshold, even though
`fromIndex ≠ toIndex`): preset index 1 ("Marble") is applied fully and the
full-quality composer render path is used, with no two-buffer compositing. -/
theorem scroll_400_settles_on_preset_one :
    numContexts = 10 ∧ SCROLL_PER_CONTEXT = 400 ∧
    onScroll 0 400 = 1 ∧
    fromIdx (onScroll 0 400) = 1 ∧ toIdx (onScroll 0 400) = 2 ∧
    fracT (onScroll 0 400) = 0 ∧
    animateRenderPath (onScroll 0 400) = .fullQuality 1 ∧
    contextNames.get? 1 = some "Marble" := by
  have h : onScroll 0 400 = 1 := by
    norm_num [onScroll, SCROLL_PER_CONTEXT, numContexts, contextNames]
  have hf : fromIdx (onScroll 0 400) = 1 := by simp [h, fromIdx]
  have ht : toIdx (onScroll 0 400) = 2 := by
    simp [toIdx, hf, numContexts, contextNames]
  have hfr : fracT (onScroll 0 400) = 0 := by
    norm_num [fracT, h, fromIdx]
  refine ⟨rfl, rfl, h, hf, ht, hfr, ?_, rfl⟩
  rw [animateRenderPath, if_neg, hf]
  rw [hfr]
  norm_num

/-! ### Hotspot Annotation Engine: anchor resolution

`initHotspots` resolves each configured descriptor to a scene node: a full
traversal looking for an exact name match first, then a second traversal
using a substring (`includes`) fallback guarded by JS truthiness of the
name; the first match in traversal order is kept (`if (!target ...)`), and a
descriptor with no match is skipped with a warning.  The scene traversal is
modelled by the list of node names in traversal order. -/

/-- One configured hotspot descriptor; the source field `match` is spelled
`matchTok` because `match` is a reserved word. -/
structure HotspotDesc where
  matchTok : String
  title : String
  desc : String
  deriving DecidableEq

/-- The `HOTSPOTS` configuration list of the source. -/
def HOTSPOTS : List HotspotDesc :=
  [⟨"ANGL-PAR-OSH-001_REV-G", "SIDE PANEL", "Aluminium enclosure"⟩,
   ⟨"ANGL-PAR-OSH-002_REV-G", "TOP PANEL", "CNC ventilation"⟩,
   ⟨"Motherboard Mini-ATX generic", "MOTHERBOARD", "ASUS Strix B850-I"⟩,
   ⟨"RTX 5090", "GPU", "RTX 5090 Inno3D iChill"⟩,
   ⟨"SF1000_simplified", "PSU", "Corsair SF1000"⟩,
   ⟨"Noctua-200mm", "FAN", "Noctua 200 mm"⟩,
   ⟨"Alphacool radiator 200mm", "RADIATOR", "Alphacool 200 mm"⟩,
   ⟨"DDR5 module", "MEMORY", "DDR5 module"⟩,
   ⟨"SSD NVMe M2 2280 Generic", "STORAGE", "NVMe M.2 2280 SSD"⟩,
   ⟨"Power button assembly", "POWER BUTTON", "Illuminated momentary"⟩,
   ⟨"Riser_AG-P5-33VV-v.3_MOUNTED", "RISER CABLE", "PCIe 5.0 x16"⟩]

/-- Anchor resolution for one descriptor token: exact name match over the
full traversal first, substring fallback second; first match wins. -/
def findHotspotTarget (names : List String) (tok : String) : Option String :=
  match names.find? (fun n => n == tok) with
  | some target => some target
  | none => names.find? (fun n => !n.isEmpty && strIncludes n tok)

/-- `initHotspots`: resolve every descriptor, skipping the unmatched ones
(non-fatally); each kept instance pairs the descriptor with its node. -/
def initHotspots (names : List String) : List (HotspotDesc × String) :=
  HOTSPOTS.filterMap
    (fun hs => (findHotspotTarget names hs.matchTok).map (fun t => (hs, t)))

/-- C8: whenever the scene traversal contains a node literally named like the
anchor token, resolution returns that exact-name node — the substring
fallback is never consulted, so a longer name containing the token as a
substring cannot win, no matter where it sits in traversal order. -/
theorem hotspot_exact_match_beats_substring (names : List String) (tok : String)
    (h : tok ∈ names) : findHotspotTarget names tok = some tok := by
  unfold findHotspotTarget
  have hs : (names.find? (fun n => n == tok)).isSome := by
    rw [List.find?_isSome]
    exact ⟨tok, h, by simp⟩
  obtain ⟨a, ha⟩ := Option.isSome_iff_exists.mp hs
  have hat : a = tok := by
    have := List.find?_some ha
    simpa using this
  rw [ha, hat]

/-- Scene traversal for the C8 scenario: a node whose longer name contains
"RTX 5090" as a substring comes earlier in traversal order than the node
literally named "RTX 5090". -/
def rtxSceneNames : List String :=
  ["Scene", "GPU bracket RTX 5090 holder", "RTX 5090", "Motherboard Mini-ATX generic"]

/-- C8 witness: on the concrete scenario scene, the anchor token "RTX 5090"
resolves to the node literally named "RTX 5090", even though the substring
fallback alone would have picked the earlier longer-named node. -/
theorem hotspot_exact_match_beats_substring_witness :
    "RTX 5090" ∈ rtxSceneNames ∧
    findHotspotTarget rtxSceneNames "RTX 5090" = some "RTX 5090" ∧
    rtxSceneNames.find? (fun n => !n.isEmpty && strIncludes n "RTX 5090") =
      some "GPU bracket RTX 5090 holder" :=
  ⟨by decide, hotspot_exact_match_beats_substring rtxSceneNames "RTX 5090" (by decide),
   by decide⟩

/-! ### Part Grouping Resolver

`buildToggleMap` scans the scene for every node whose name contains
"Solid2" and classifies it: exact name "Solid2" or a name containing ".001"
is an individual toggle, everything else is a group member.  The scene is
modelled by the traversal-ordered list of `(node, name)` pairs. -/

/-- A scene node reference (identity of a node in the loaded graph). -/
abbrev NodeId := ℕ

/-- Result of the grouping resolver. -/
structure ToggleMap where
  individuals : List NodeId
  groupMembers : List NodeId

/-- The individual-toggle test of `buildToggleMap`:
`child.name === "Solid2" || child.name.includes(".001")`. -/
def isIndividualToggleName (name : String) : Bool :=
  name == "Solid2" || strIncludes name ".001"

/-- `buildToggleMap`: collect every node whose name contains "Solid2", then
split into individuals and group members. -/
def buildToggleMap (nodes : List (NodeId × String)) : ToggleMap :=
  let allSolid2 := nodes.filter (fun p => strIncludes p.2 "Solid2")
  let split := allSolid2.partition (fun p => isIndividualToggleName p.2)
  { individuals := split.1.map Prod.fst, groupMembers := split.2.map Prod.fst }

/-! ### Pointer Interaction Engine

The scene-graph queries the engine needs are modelled abstractly: `chain n`
is the parent chain of `n` (the node itself first, exactly the order
`findOwner` walks), `subtreeMeshes n` are the meshes reached by traversing
the subtree of `n` (what `collectMeshes` gathers).  The raycaster is an
oracle taking the current visibility map and the candidate mesh list and
returning the first hit, if any. -/

/-- Abstract scene-graph read interface. -/
structure Scene where
  chain : NodeId → List NodeId
  subtreeMeshes : NodeId → List NodeId

/-- Raycast oracle: first intersected mesh among the candidates, given the
current per-node visibility. -/
abbrev RayOracle := (NodeId → Bool) → List NodeId → Option NodeId

/-- `highlightEmissive = new THREE.Color(0x333333)`. -/
def highlightEmissive : ℤ := 0x333333

/-- `defaultEmissive = new THREE.Color(0x000000)`. -/
def defaultEmissive : ℤ := 0x000000

/-- Mutable interaction state: per-node visibility flags, per-mesh emissive
colors, and the currently hovered group. -/
structure IState where
  visible : NodeId → Bool
  emissive : NodeId → ℤ
  hoveredGroup : Option (List NodeId)

/-- `collectMeshes`: all meshes in the subtrees of the given objects. -/
def collectMeshes (sc : Scene) (objects : List NodeId) : List NodeId :=
  objects.flatMap sc.subtreeMeshes

/-- `setGroupEmissive(objects, color)`: paint every mesh under the given
objects with the color. -/
def setGroupEmissive (sc : Scene) (objects : List NodeId) (color : ℤ)
    (em : NodeId → ℤ) : NodeId → ℤ :=
  fun m => if m ∈ collectMeshes sc objects then color else em m

/-- `findOwner`: walk up from a mesh through its parent chain until a node in
the candidate list is found. -/
def findOwner (sc : Scene) (mesh : NodeId) (candidates : List NodeId) : Option NodeId :=
  (sc.chain mesh).find? (fun o => decide (o ∈ candidates))

/-- `getToggleGroup`: the objects that would be toggled if this mesh were
clicked; individuals take precedence over the group. -/
def getToggleGroup (sc : Scene) (tm : ToggleMap) (mesh : NodeId) : Option (List NodeId) :=
  match findOwner sc mesh tm.individuals with
  | some indivOwner => some [indivOwner]
  | none =>
    match findOwner sc mesh tm.groupMembers with
    | some _ => some tm.groupMembers
    | none => none

/-- `[...toggleMap.individuals, ...toggleMap.groupMembers]`. -/
def allToggleable (tm : ToggleMap) : List NodeId :=
  tm.individuals ++ tm.groupMembers

/-- The mousemove handler: raycast against the meshes of currently visible
toggleable parts, resolve the hovered toggle group, and if it changed,
un-highlight the previous group and highlight the new one. -/
def onMouseMove (sc : Scene) (tm : ToggleMap) (ray : RayOracle) (st : IState) : IState :=
  let meshes := collectMeshes sc ((allToggleable tm).filter (fun p => st.visible p))
  let newGroup : Option (List NodeId) :=
    match ray st.visible meshes with
    | some hitMesh => getToggleGroup sc tm hitMesh
    | none => none
  if newGroup ≠ st.hoveredGroup then
    let cleared :=
      match st.hoveredGroup with
      | some g => setGroupEmissive sc g defaultEmissive st.emissive
      | none => st.emissive
    let applied :=
      match newGroup with
      | some g => setGroupEmissive sc g highlightEmissive cleared
      | none => cleared
    { st with emissive := applied, hoveredGroup := newGroup }
  else st

/-- The toggleable parts that are currently hidden (collected before the ray
test so they can be temporarily forced visible). -/
def wasHidden (tm : ToggleMap) (st : IState) : List NodeId :=
  (allToggleable tm).filter (fun p => !(st.visible p))

/-- Visibility during the ray test of `tryTogglePart`: every previously
hidden toggleable part forced visible. -/
def forcedVisible (tm : ToggleMap) (st : IState) : NodeId → Bool :=
  fun p => if p ∈ wasHidden tm st then true else st.visible p

/-- Visibility after the restore step of `tryTogglePart`: the forced parts
set back to hidden. -/
def restoredVisible (tm : ToggleMap) (st : IState) : NodeId → Bool :=
  fun p => if p ∈ wasHidden tm st then false else forcedVisible tm st p

/-- The `if (hoveredGroup) { ... }` highlight-clearing step shared by both
toggle branches. -/
def clearHover (sc : Scene) (st : IState) : IState :=
  match st.hoveredGroup with
  | some g =>
      { st with emissive := setGroupEmissive sc g defaultEmissive st.emissive,
                hoveredGroup := none }
  | none => st

/-- `tryTogglePart`: force hidden toggleables visible, raycast against all
toggleable meshes, restore prior visibility, then toggle the resolved owner
(individual first, else the whole group) and clear any hover highlight;
returns whether the click was handled. -/
def tryTogglePart (sc : Scene) (tm : ToggleMap) (ray : RayOracle) (st : IState) :
    Bool × IState :=
  let meshes := collectMeshes sc (allToggleable tm)
  match ray (forcedVisible tm st) meshes with
  | some hitMesh =>
    match findOwner sc hitMesh tm.individuals with
    | some indivOwner =>
        (true, clearHover sc
          { st with visible := fun p =>
              if p = indivOwner then !(restoredVisible tm st indivOwner)
              else restoredVisible tm st p })
    | none =>
      match findOwner sc hitMesh tm.groupMembers with
      | some groupOwner =>
          let newVis := !(restoredVisible tm st groupOwner)
          (true, clearHover sc
            { st with visible := fun p =>
                if p ∈ tm.groupMembers then newVis
                else restoredVisible tm st p })
      | none => (false, { st with visible := restoredVisible tm st })
  | none => (false, { st with visible := restoredVisible tm st })

lemma mem_wasHidden (tm : ToggleMap) (st : IState) (p : NodeId) :
    p ∈ wasHidden tm st ↔ p ∈ allToggleable tm ∧ st.visible p = false := by
  unfold wasHidden
  rw [List.mem_filter]
  simp

lemma restoredVisible_eq (tm : ToggleMap) (st : IState) (p : NodeId) :
    restoredVisible tm st p = st.visible p := by
  unfold restoredVisible forcedVisible
  by_cases h : p ∈ wasHidden tm st
  · have hv : st.visible p = false := ((mem_wasHidden tm st p).mp h).2
    simp [h, hv]
  · simp [h]

lemma forcedVisible_of_mem (tm : ToggleMap) (st : IState) (p : NodeId)
    (hp : p ∈ allToggleable tm) : forcedVisible tm st p = true := by
  unfold forcedVisible
  by_cases h : p ∈ wasHidden tm st
  · simp [h]
  · simp only [h, if_false]
    by_contra hv
    exact h ((mem_wasHidden tm st p).mpr ⟨hp, by simpa using hv⟩)

lemma clearHover_visible (sc : Scene) (st : IState) :
    (clearHover sc st).visible = st.visible := by
  unfold clearHover
  cases st.hoveredGroup <;> rfl

lemma findOwner_mem (sc : Scene) (mesh : NodeId) (candidates : List NodeId)
    (o : NodeId) (h : findOwner sc mesh candidates = some o) : o ∈ candidates := by
  have := List.find?_some h
  simpa using this

/-- Case analysis on the visibility effect of one `tryTogglePart` call:
either unhandled and untouched, or one individual flipped, or the whole
group set to one shared value. -/
lemma tryToggle_visible_cases (sc : Scene) (tm : ToggleMap) (ray : RayOracle) (st : IState) :
    ((tryTogglePart sc tm ray st).1 = false ∧
      ∀ p, ((tryTogglePart sc tm ray st).2).visible p = st.visible p) ∨
    (∃ o ∈ tm.individuals,
      ((tryTogglePart sc tm ray st).2).visible o = !(st.visible o) ∧
      ∀ p, p ≠ o → ((tryTogglePart sc tm ray st).2).visible p = st.visible p) ∨
    (∃ b, (∀ m ∈ tm.groupMembers, ((tryTogglePart sc tm ray st).2).visible m = b) ∧
      ∀ p, p ∉ tm.groupMembers → ((tryTogglePart sc tm ray st).2).visible p = st.visible p) := by
  cases hray : ray (forcedVisible tm st) (collectMeshes sc (allToggleable tm)) with
  | none =>
      left
      constructor
      · simp [tryTogglePart, hray]
      · intro p
        simp [tryTogglePart, hray, restoredVisible_eq]
  | some hitMesh =>
      cases hind : findOwner sc hitMesh tm.individuals with
      | some indivOwner =>
          right; left
          refine ⟨indivOwner, findOwner_mem sc hitMesh _ _ hind, ?_, ?_⟩
          · simp [tryTogglePart, hray, hind, clearHover_visible, restoredVisible_eq]
          · intro p hp
            simp [tryTogglePart, hray, hind, clearHover_visible, restoredVisible_eq, hp]
      | none =>
          cases hgrp : findOwner sc hitMesh tm.groupMembers with
          | some groupOwner =>
              right; right
              refine ⟨!(restoredVisible tm st groupOwner), fun m hm => ?_, fun p hp => ?_⟩
              · simp [tryTogglePart, hray, hind, hgrp, clearHover_visible, hm]
              · simp [tryTogglePart, hray, hind, hgrp, clearHover_visible,
                  restoredVisible_eq, hp]
          | none =>
              left
              constructor
              · simp [tryTogglePart, hray, hind, hgrp]
              · intro p
                simp [tryTogglePart, hray, hind, hgrp, restoredVisible_eq]

/-- C5: `tryTogglePart` restores the prior visibility of every temporarily
forced part exactly (the restored map equals the pre-call map pointwise)
before mutating anything; during the ray test every toggleable part —
including fully hidden ones — is visible, hence hit-testable; and after the
call, every part other than the resolved individual (or the toggled group
members) has exactly its prior visibility. -/
theorem tryToggle_scoped_visibility_override (sc : Scene) (tm : ToggleMap)
    (ray : RayOracle) (st : IState) :
    (∀ p, restoredVisible tm st p = st.visible p) ∧
    (∀ p ∈ allToggleable tm, forcedVisible tm st p = true) ∧
    (((tryTogglePart sc tm ray st).1 = false ∧
       ∀ p, ((tryTogglePart sc tm ray st).2).visible p = st.visible p) ∨
     (∃ o ∈ tm.individuals,
       ((tryTogglePart sc tm ray st).2).visible o = !(st.visible o) ∧
       ∀ p, p ≠ o → ((tryTogglePart sc tm ray st).2).visible p = st.visible p) ∨
     (∃ b, (∀ m ∈ tm.groupMembers, ((tryTogglePart sc tm ray st).2).visible m = b) ∧
       ∀ p, p ∉ tm.groupMembers → ((tryTogglePart sc tm ray st).2).visible p = st.visible p)) :=
  ⟨restoredVisible_eq tm st, forcedVisible_of_mem tm st,
   tryToggle_visible_cases sc tm ray st⟩

/-! ### Event sequences and the group-uniformity invariant -/

/-- One pointer event reaching the interaction engine: a hover update or a
click that goes through `tryTogglePart`. -/
inductive PointerEvent where
  | move (ray : RayOracle)
  | click (ray : RayOracle)

/-- Apply one pointer event to the interaction state. -/
def applyPointerEvent (sc : Scene) (tm : ToggleMap) : PointerEvent → IState → IState
  | .move ray, st => onMouseMove sc tm ray st
  | .click ray, st => (tryTogglePart sc tm ray st).2

/-- Run a sequence of pointer events. -/
def runPointerEvents (sc : Scene) (tm : ToggleMap) (evs : List PointerEvent)
    (st : IState) : IState :=
  evs.foldl (fun s e => applyPointerEvent sc tm e s) st

/-- The initial interaction state of a freshly loaded model: everything
visible, no highlight, nothing hovered. -/
def initialIState : IState :=
  { visible := fun _ => true, emissive := fun _ => defaultEmissive, hoveredGroup := none }

/-- All members of the group toggle unit carry the same visibility flag. -/
def groupUniform (tm : ToggleMap) (st : IState) : Prop :=
  ∀ m₁ ∈ tm.groupMembers, ∀ m₂ ∈ tm.groupMembers, st.visible m₁ = st.visible m₂

lemma onMouseMove_visible (sc : Scene) (tm : ToggleMap) (ray : RayOracle) (st : IState) :
    (onMouseMove sc tm ray st).visible = st.visible := by
  simp only [onMouseMove, apply_ite IState.visible, ite_self]

lemma buildToggleMap_disjoint (nodes : List (NodeId × String))
    (hnodup : (nodes.map Prod.fst).Nodup) :
    ∀ x ∈ (buildToggleMap nodes).individuals, x ∉ (buildToggleMap nodes).groupMembers := by
  intro x hxi hxg
  unfold buildToggleMap at hxi hxg
  simp only [List.partition_eq_filter_filter, List.mem_map] at hxi hxg
  obtain ⟨a, hai, hax⟩ := hxi
  obtain ⟨b, hbi, hbx⟩ := hxg
  have ha := List.mem_filter.mp hai
  have hb := List.mem_filter.mp hbi
  have han : a ∈ nodes := (List.mem_filter.mp ha.1).1
  have hbn : b ∈ nodes := (List.mem_filter.mp hb.1).1
  have hab : a = b :=
    List.inj_on_of_nodup_map hnodup han hbn (hax.trans hbx.symm)
  rw [hab] at ha
  have h1 := ha.2
  have h2 := hb.2
  simp [h1] at h2

lemma groupUniform_step (sc : Scene) (tm : ToggleMap)
    (hdisj : ∀ x ∈ tm.individuals, x ∉ tm.groupMembers)
    (e : PointerEvent) (st : IState) (h : groupUniform tm st) :
    groupUniform tm (applyPointerEvent sc tm e st) := by
  cases e with
  | move ray =>
      intro m₁ h₁ m₂ h₂
      simp only [applyPointerEvent, onMouseMove_visible]
      exact h m₁ h₁ m₂ h₂
  | click ray =>
      rcases tryToggle_visible_cases sc tm ray st with
        ⟨_, hsame⟩ | ⟨o, ho, _, hother⟩ | ⟨b, hmem, _⟩
      · intro m₁ h₁ m₂ h₂
        simp only [applyPointerEvent]
        rw [hsame m₁, hsame m₂]
        exact h m₁ h₁ m₂ h₂
      · intro m₁ h₁ m₂ h₂
        have hne₁ : m₁ ≠ o := fun he => hdisj o ho (he ▸ h₁)
        have hne₂ : m₂ ≠ o := fun he => hdisj o ho (he ▸ h₂)
        simp only [applyPointerEvent]
        rw [hother m₁ hne₁, hother m₂ hne₂]
        exact h m₁ h₁ m₂ h₂
      · intro m₁ h₁ m₂ h₂
        simp only [applyPointerEvent]
        rw [hmem m₁ h₁, hmem m₂ h₂]

/-- C6: starting from the all-visible initial state, after any sequence of
hover and click events the members of the group toggle unit built by
`buildToggleMap` all share one visibility value: a group toggle assigns one
flag to every member uniformly, and an individual toggle (the only other
visibility-mutating operation) never touches a group member, because the
classification puts every node in exactly one of the two lists. -/
theorem group_members_always_uniform (nodes : List (NodeId × String))
    (hnodup : (nodes.map Prod.fst).Nodup) (sc : Scene) (evs : List PointerEvent) :
    groupUniform (buildToggleMap nodes)
      (runPointerEvents sc (buildToggleMap nodes) evs initialIState) := by
  have hdisj := buildToggleMap_disjoint nodes hnodup
  suffices hstep : ∀ st : IState, groupUniform (buildToggleMap nodes) st →
      groupUniform (buildToggleMap nodes)
        (evs.foldl (fun s e => applyPointerEvent sc (buildToggleMap nodes) e s) st) by
    exact hstep initialIState (fun m₁ _ m₂ _ => rfl)
  induction evs with
  | nil => intro st h; exact h
  | cons e rest ih =>
      intro st h
      exact ih _ (groupUniform_step sc (buildToggleMap nodes) hdisj e st h)

/-- A minimal concrete scene for witnesses: each node is its own one-element
parent chain and its own subtree mesh. -/
def scUnit : Scene := ⟨fun n => [n], fun n => [n]⟩

/-- A raycast oracle that never hits anything (pointer over empty space). -/
def rayMissAll : RayOracle := fun _ _ => none

/-- A raycast oracle whose first hit is always node 1. -/
def rayHitOne : RayOracle := fun _ _ => some 1

/-- Concrete traversal for the C6 witness: the canonical individual, two
group members and a variant-suffix individual. -/
def solidNodes : List (NodeId × String) :=
  [(0, "Solid2"), (1, "Solid2_panel_left"), (2, "Solid2_panel_right"), (3, "Solid2.001")]

/-- C6 witness: on the concrete scene, after a click that toggles the group
via member 1, all group members still share one visibility value. -/
theorem group_members_always_uniform_witness :
    groupUniform (buildToggleMap solidNodes)
      (runPointerEvents scUnit (buildToggleMap solidNodes)
        [PointerEvent.click rayHitOne] initialIState) :=
  group_members_always_uniform solidNodes (by decide) scUnit [PointerEvent.click rayHitOne]

/-! ### Behaviour of a pointer position that hits no geometry -/

/-- A toggle map with a single individual part, node 5. -/
def tmSingle : ToggleMap := ⟨[5], []⟩

/-- Interaction state in which node 5 is currently hovered and highlighted. -/
def stHovering : IState :=
  { visible := fun _ => true,
    emissive := fun n => if n = 5 then highlightEmissive else defaultEmissive,
    hoveredGroup := some [5] }

/-- C1 counterexample: with node 5 hovered and highlighted, a mousemove whose
ray hits nothing does NOT leave the highlight state unchanged — it clears the
highlight of the previously hovered group and resets the hovered group, so
the hover update at a no-intersection position is not a no-op for every prior
state. -/
theorem mousemove_miss_clears_previous_highlight :
    stHovering.emissive 5 = highlightEmissive ∧
    (onMouseMove scUnit tmSingle rayMissAll stHovering).emissive 5 = defaultEmissive ∧
    (onMouseMove scUnit tmSingle rayMissAll stHovering).emissive 5 ≠ stHovering.emissive 5 ∧
    (onMouseMove scUnit tmSingle rayMissAll stHovering).hoveredGroup ≠ stHovering.hoveredGroup := by
  refine ⟨rfl, ?_, ?_, ?_⟩ <;> decide

/-- C1 amended: when the ray hits no geometry, `tryTogglePart` returns false
and leaves every visibility flag, every emissive color and the hovered group
unchanged; the hover update leaves all visibility unchanged and is a strict
no-op when nothing was hovered, but when a group was hovered it clears that
the highlight of that group back to the default emissive and resets the hovered group
to none. -/
theorem pointer_miss_effects (sc : Scene) (tm : ToggleMap) (ray : RayOracle)
    (st : IState) (hmiss : ∀ vis meshes, ray vis meshes = none) :
    ((tryTogglePart sc tm ray st).1 = false ∧
     (∀ p, ((tryTogglePart sc tm ray st).2).visible p = st.visible p) ∧
     ((tryTogglePart sc tm ray st).2).emissive = st.emissive ∧
     ((tryTogglePart sc tm ray st).2).hoveredGroup = st.hoveredGroup) ∧
    (st.hoveredGroup = none → onMouseMove sc tm ray st = st) ∧
    (∀ g, st.hoveredGroup = some g →
      (onMouseMove sc tm ray st).hoveredGroup = none ∧
      (onMouseMove sc tm ray st).visible = st.visible ∧
      (onMouseMove sc tm ray st).emissive =
        setGroupEmissive sc g defaultEmissive st.emissive) := by
  refine ⟨⟨?_, ?_, ?_, ?_⟩, ?_, ?_⟩
  · simp [tryTogglePart, hmiss]
  · intro p
    simp [tryTogglePart, hmiss, restoredVisible_eq]
  · simp [tryTogglePart, hmiss]
  · simp [tryTogglePart, hmiss]
  · intro h
    simp [onMouseMove, hmiss, h]
  · intro g hg
    refine ⟨?_, ?_, ?_⟩ <;> simp [onMouseMove, hmiss, hg]

/-- C1 witness: on the concrete scene with nothing hovered, a missing ray
leaves the click unhandled and both handlers act as strict no-ops. -/
theorem pointer_miss_effects_witness :
    ((tryTogglePart scUnit tmSingle rayMissAll initialIState).1 = false ∧
     (∀ p, ((tryTogglePart scUnit tmSingle rayMissAll initialIState).2).visible p =
        initialIState.visible p) ∧
     ((tryTogglePart scUnit tmSingle rayMissAll initialIState).2).emissive =
        initialIState.emissive ∧
     ((tryTogglePart scUnit tmSingle rayMissAll initialIState).2).hoveredGroup =
        initialIState.hoveredGroup) ∧
    (initialIState.hoveredGroup = none →
      onMouseMove scUnit tmSingle rayMissAll initialIState = initialIState) ∧
    (∀ g, initialIState.hoveredGroup = some g →
      (onMouseMove scUnit tmSingle rayMissAll initialIState).hoveredGroup = none ∧
      (onMouseMove scUnit tmSingle rayMissAll initialIState).visible = initialIState.visible ∧
      (onMouseMove scUnit tmSingle rayMissAll initialIState).emissive =
        setGroupEmissive scUnit g defaultEmissive initialIState.emissive) :=
  pointer_miss_effects scUnit tmSingle rayMissAll initialIState (fun _ _ => rfl)

/-! ### Hotspot per-frame screen placement

`updateHotspotPositions` projects each anchor center through the active
camera; the projection result is modelled by its normalized device
coordinates `(px, py, pz)`.  Only the DOM effects are kept: marker screen
position and opacity, the tag card side flag and its `visible` CSS class,
and the persistent `open` flag of the instance. -/

/-- One hotspot instance as the per-frame update sees it; the source field
`open` is spelled `openFlag` because `open` is a reserved word. -/
structure HotspotInstance where
  openFlag : Bool
  tagVisible : Bool
  markerHidden : Bool
  markerLeft : ℚ
  markerTop : ℚ
  tagOnLeft : Bool
  deriving DecidableEq

/-- The body of the `updateHotspotPositions` loop for one instance, given the
window size `(w, h)` and the projected anchor center `(px, py, pz)`:
`projected.z > 1` means behind the camera — hide the marker and remove the
visible class from the tag; otherwise place the marker and the tag. -/
def updateHotspotInstance (w h px py pz : ℚ) (inst : HotspotInstance) : HotspotInstance :=
  let hw := w / 2
  let hh := h / 2
  let sx := px * hw + hw
  let sy := -py * hh + hh
  if pz > 1 then
    { inst with markerHidden := true, tagVisible := false }
  else
    { inst with markerHidden := false, markerLeft := sx, markerTop := sy,
                tagOnLeft := sx > w / 2 }

/-- A hotspot instance whose detail card is currently open and shown. -/
def instOpen : HotspotInstance :=
  { openFlag := true, tagVisible := true, markerHidden := false,
    markerLeft := 0, markerTop := 0, tagOnLeft := false }

/-- C4 counterexample: for an anchor projected behind the camera (depth 2 on
a 1920 by 1080 window), the update hides the marker and removes the visible
class from the card, but the open flag of the instance stays true — the open
state does NOT become closed, contradicting the claim that the card is
forced closed rather than merely visually hidden. -/
theorem behind_camera_update_keeps_open_flag :
    (2 : ℚ) > 1 ∧
    (updateHotspotInstance 1920 1080 0 0 2 instOpen).markerHidden = true ∧
    (updateHotspotInstance 1920 1080 0 0 2 instOpen).tagVisible = false ∧
    (updateHotspotInstance 1920 1080 0 0 2 instOpen).openFlag = true := by
  refine ⟨by norm_num, ?_, ?_, ?_⟩ <;> decide

/-- C4 amended: on every per-frame hotspot update, an instance whose
projected depth is behind the camera gets its marker hidden and its detail
card visually hidden (the visible class removed), while the open flag of the
instance is left unchanged (merely visually hidden, not forced closed). -/
theorem behind_camera_hides_marker_and_card (w h px py pz : ℚ)
    (inst : HotspotInstance) (hz : pz > 1) :
    (updateHotspotInstance w h px py pz inst).markerHidden = true ∧
    (updateHotspotInstance w h px py pz inst).tagVisible = false ∧
    (updateHotspotInstance w h px py pz inst).openFlag = inst.openFlag := by
  unfold updateHotspotInstance
  simp [hz]

/-- C4 witness: the amended behaviour at the concrete behind-camera input. -/
theorem behind_camera_hides_marker_and_card_witness :
    (updateHotspotInstance 1920 1080 0 0 2 instOpen).markerHidden = true ∧
    (updateHotspotInstance 1920 1080 0 0 2 instOpen).tagVisible = false ∧
    (updateHotspotInstance 1920 1080 0 0 2 instOpen).openFlag = instOpen.openFlag :=
  behind_camera_hides_marker_and_card 1920 1080 0 0 2 instOpen (by norm_num)

/-! ### The explode toggle key -/

/-- The state the keydown handler for the explode key touches: the exploded
flag and the hotspot instances. -/
structure ExplodeUIState where
  exploded : Bool
  hotspots : List HotspotInstance

/-- The branch of the keydown handler for the explode key: flip `exploded`,
then overwrite the open flag of every hotspot instance (and the visible class of
its card) with the new exploded value. -/
def keydownExplodeToggle (st : ExplodeUIState) : ExplodeUIState :=
  let ex := !st.exploded
  { exploded := ex,
    hotspots := st.hotspots.map (fun inst => { inst with openFlag := ex, tagVisible := ex }) }

/-- C10: pressing the explode toggle key flips the exploded flag and
overwrites the open flag and card visibility of every hotspot instance with
the new exploded value, discarding whatever per-hotspot open state the user
had set — entering exploded mode opens all cards, leaving it closes all. -/
theorem explode_key_overwrites_hotspot_open_state (st : ExplodeUIState) :
    (keydownExplodeToggle st).exploded = !st.exploded ∧
    ∀ inst ∈ (keydownExplodeToggle st).hotspots,
      inst.openFlag = !st.exploded ∧ inst.tagVisible = !st.exploded := by
  constructor
  · rfl
  · intro inst hmem
    simp only [keydownExplodeToggle, List.mem_map] at hmem
    obtain ⟨a, -, rfl⟩ := hmem
    exact ⟨rfl, rfl⟩

/-! ### Explode Animator geometry

`buildExplodeParts` computes, per mesh, the world-space direction from the
model bounding-box center to the mesh bounding-box center, clamps its
vertical component to at least 0.05, normalizes it, and converts it into the
parent-local orientation frame by applying the inverted parent world
quaternion.  Vectors and quaternions are modelled over `ℝ` (the source works
in doubles and takes a square root during normalization). -/

/-- A 3D vector. -/
@[ext]
structure Vec3 where
  x : ℝ
  y : ℝ
  z : ℝ

/-- Componentwise sum (`Vector3.add`). -/
def Vec3.add (a b : Vec3) : Vec3 := ⟨a.x + b.x, a.y + b.y, a.z + b.z⟩

/-- Componentwise difference (`Vector3.subVectors`). -/
def Vec3.sub (a b : Vec3) : Vec3 := ⟨a.x - b.x, a.y - b.y, a.z - b.z⟩

/-- Scalar multiple (`Vector3.multiplyScalar`). -/
def Vec3.smul (s : ℝ) (v : Vec3) : Vec3 := ⟨s * v.x, s * v.y, s * v.z⟩

/-- Euclidean length (`Vector3.length`). -/
noncomputable def Vec3.length (v : Vec3) : ℝ :=
  Real.sqrt (v.x ^ 2 + v.y ^ 2 + v.z ^ 2)

/-- `Vector3.normalize`, which divides by `length() || 1`: the zero vector is
returned unchanged, any other vector is scaled to unit length. -/
noncomputable def Vec3.normalize (v : Vec3) : Vec3 :=
  if v.length = 0 then v else Vec3.smul (1 / v.length) v

/-- A quaternion `w + x i + y j + z k`. -/
@[ext]
structure Quat where
  w : ℝ
  x : ℝ
  y : ℝ
  z : ℝ

/-- Hamilton product (`Quaternion.multiplyQuaternions`). -/
def Quat.mul (a b : Quat) : Quat :=
  ⟨a.w * b.w - a.x * b.x - a.y * b.y - a.z * b.z,
   a.w * b.x + a.x * b.w + a.y * b.z - a.z * b.y,
   a.w * b.y - a.x * b.z + a.y * b.w + a.z * b.x,
   a.w * b.z + a.x * b.y - a.y * b.x + a.z * b.w⟩

/-- Conjugate; `Quaternion.invert` computes exactly this, assuming the
quaternion has unit length. -/
def Quat.conj (q : Quat) : Quat := ⟨q.w, -q.x, -q.y, -q.z⟩

/-- Squared norm. -/
def Quat.normSq (q : Quat) : ℝ := q.w ^ 2 + q.x ^ 2 + q.y ^ 2 + q.z ^ 2

/-- A vector as a pure quaternion. -/
def quatOfVec (v : Vec3) : Quat := ⟨0, v.x, v.y, v.z⟩

/-- The vector (imaginary) part of a quaternion. -/
def Quat.vec (q : Quat) : Vec3 := ⟨q.x, q.y, q.z⟩

/-- `Vector3.applyQuaternion`, the cross-product form used by the renderer:
`t = 2 (q.xyz × v)`, `v + q.w t + q.xyz × t`. -/
def applyQuaternion (q : Quat) (v : Vec3) : Vec3 :=
  let tx := 2 * (q.y * v.z - q.z * v.y)
  let ty := 2 * (q.z * v.x - q.x * v.z)
  let tz := 2 * (q.x * v.y - q.y * v.x)
  ⟨v.x + q.w * tx + q.y * tz - q.z * ty,
   v.y + q.w * ty + q.z * tx - q.x * tz,
   v.z + q.w * tz + q.x * ty - q.y * tx⟩

/-- Rotation as quaternion conjugation, the algebraic form used to reason
about composing a rotation with its inverse. -/
def sandwichVec (q : Quat) (v : Vec3) : Vec3 :=
  ((q.mul (quatOfVec v)).mul q.conj).vec

lemma conj_normSq (q : Quat) : q.conj.normSq = q.normSq := by
  simp only [Quat.conj, Quat.normSq]
  ring

lemma applyQuaternion_eq_sandwich (q : Quat) (v : Vec3) (hq : q.normSq = 1) :
    applyQuaternion q v = sandwichVec q v := by
  have hq : q.w ^ 2 + q.x ^ 2 + q.y ^ 2 + q.z ^ 2 = 1 := hq
  ext <;>
    simp only [applyQuaternion, sandwichVec, Quat.mul, Quat.conj, quatOfVec, Quat.vec]
  · linear_combination (-v.x) * hq
  · linear_combination (-v.y) * hq
  · linear_combination (-v.z) * hq

lemma sandwich_sandwich_conj (q : Quat) (v : Vec3) :
    sandwichVec q (sandwichVec q.conj v) = Vec3.smul (q.normSq ^ 2) v := by
  ext <;>
    simp only [sandwichVec, Quat.mul, Quat.conj, quatOfVec, Quat.vec, Vec3.smul,
      Quat.normSq] <;>
    ring

lemma applyQuaternion_roundtrip (q : Quat) (hq : q.normSq = 1) (v : Vec3) :
    applyQuaternion q (applyQuaternion q.conj v) = v := by
  rw [applyQuaternion_eq_sandwich q.conj v (by rw [conj_normSq, hq]),
    applyQuaternion_eq_sandwich q _ hq, sandwich_sandwich_conj, hq]
  ext <;> simp [Vec3.smul]

lemma applyQuaternion_smul (q : Quat) (s : ℝ) (v : Vec3) :
    applyQuaternion q (Vec3.smul s v) = Vec3.smul s (applyQuaternion q v) := by
  ext <;> simp only [applyQuaternion, Vec3.smul] <;> ring

/-- The world-space direction from the model center to the mesh center, with
the vertical component clamped to at least 0.05 — the state of `dir` in
`buildExplodeParts` just before `dir.normalize()`. -/
def preNormExplodeDir (childCenter modelCtr : Vec3) : Vec3 :=
  let dir := childCenter.sub modelCtr
  { dir with y := max dir.y 0.05 }

/-- The direction stored in an explode part: the clamped world direction,
normalized, then rotated by the inverted parent world quaternion into the
parent-local orientation frame. -/
noncomputable def buildExplodeDirection (childCenter modelCtr : Vec3) (parentQuat : Quat) :
    Vec3 :=
  applyQuaternion parentQuat.conj (preNormExplodeDir childCenter modelCtr).normalize

/-- `const EXPLODE_DISTANCE = 0.3`. -/
def EXPLODE_DISTANCE : ℝ := 0.3

/-- One step of the `explodeT` smoothing in `updateExplode`:
`explodeT += (target - explodeT) * 0.08` with target 0 or 1. -/
def explodeTStep (exploded : Bool) (explodeT : ℝ) : ℝ :=
  explodeT + ((if exploded then 1 else 0) - explodeT) * 0.08

/-- The per-part position assignment of `updateExplode`:
`originalPos + direction * (explodeT * EXPLODE_DISTANCE)`. -/
noncomputable def updateExplodePosition (originalPos direction : Vec3) (explodeT : ℝ) :
    Vec3 :=
  originalPos.add (Vec3.smul (explodeT * EXPLODE_DISTANCE) direction)

lemma preNormExplodeDir_y (childCenter modelCtr : Vec3) :
    (0.05 : ℝ) ≤ (preNormExplodeDir childCenter modelCtr).y :=
  le_max_right _ _

lemma preNormExplodeDir_length_pos (childCenter modelCtr : Vec3) :
    0 < (preNormExplodeDir childCenter modelCtr).length := by
  set d := preNormExplodeDir childCenter modelCtr with hd
  have hy : (0.05 : ℝ) ≤ d.y := preNormExplodeDir_y childCenter modelCtr
  have harg : 0 < d.x ^ 2 + d.y ^ 2 + d.z ^ 2 := by
    nlinarith [sq_nonneg d.x, sq_nonneg d.z]
  exact Real.sqrt_pos.mpr harg

lemma normalize_y_pos (v : Vec3) (hy : (0.05 : ℝ) ≤ v.y) (hlen : 0 < v.length) :
    0 < v.normalize.y := by
  unfold Vec3.normalize
  rw [if_neg (ne_of_gt hlen)]
  have : (0 : ℝ) < 1 / v.length := by positivity
  simp only [Vec3.smul]
  nlinarith

/-- C3: for every mesh, the explode direction construction clamps the
vertical component of the world-space offset to at least 0.05 before
normalization; after normalization and conversion into the parent-local
orientation frame by a unit parent quaternion, rotating the stored direction
back to world space yields a strictly positive vertical component, and the
world-space displacement produced by `updateExplode` for any nonnegative
`explodeT` never points downward. -/
theorem explode_direction_never_downward (childCenter modelCtr origPos : Vec3)
    (parentQuat : Quat) (hq : parentQuat.normSq = 1) (t : ℝ) (ht : 0 ≤ t) :
    (0.05 : ℝ) ≤ (preNormExplodeDir childCenter modelCtr).y ∧
    0 < (applyQuaternion parentQuat
          (buildExplodeDirection childCenter modelCtr parentQuat)).y ∧
    0 ≤ (applyQuaternion parentQuat
          ((updateExplodePosition origPos
              (buildExplodeDirection childCenter modelCtr parentQuat) t).sub origPos)).y := by
  have h1 := preNormExplodeDir_y childCenter modelCtr
  have hworld :
      applyQuaternion parentQuat (buildExplodeDirection childCenter modelCtr parentQuat) =
        (preNormExplodeDir childCenter modelCtr).normalize := by
    unfold buildExplodeDirection
    exact applyQuaternion_roundtrip parentQuat hq _
  have h2 : 0 < (applyQuaternion parentQuat
      (buildExplodeDirection childCenter modelCtr parentQuat)).y := by
    rw [hworld]
    exact normalize_y_pos _ h1 (preNormExplodeDir_length_pos childCenter modelCtr)
  refine ⟨h1, h2, ?_⟩
  have hdisp :
      (updateExplodePosition origPos
          (buildExplodeDirection childCenter modelCtr parentQuat) t).sub origPos =
        Vec3.smul (t * EXPLODE_DISTANCE)
          (buildExplodeDirection childCenter modelCtr parentQuat) := by
    ext <;> simp only [updateExplodePosition, Vec3.add, Vec3.sub, Vec3.smul] <;> ring
  rw [hdisp, applyQuaternion_smul]
  have hcoef : 0 ≤ t * EXPLODE_DISTANCE := by
    have : (0 : ℝ) ≤ EXPLODE_DISTANCE := by norm_num [EXPLODE_DISTANCE]
    positivity
  simp only [Vec3.smul]
  exact mul_nonneg hcoef (le_of_lt h2)

/-- The identity parent quaternion (no parent rotation). -/
def qIdentity : Quat := ⟨1, 0, 0, 0⟩

/-- The zero vector. -/
def vZero : Vec3 := ⟨0, 0, 0⟩

/-- C3 witness: at the degenerate mesh whose center coincides with the model
center, with identity parent rotation and explode parameter 1, the clamp,
the positive world vertical component, and the nonnegative displacement all
hold. -/
theorem explode_direction_never_downward_witness :
    (0.05 : ℝ) ≤ (preNormExplodeDir vZero vZero).y ∧
    0 < (applyQuaternion qIdentity (buildExplodeDirection vZero vZero qIdentity)).y ∧
    0 ≤ (applyQuaternion qIdentity
          ((updateExplodePosition vZero
              (buildExplodeDirection vZero vZero qIdentity) 1).sub vZero)).y :=
  explode_direction_never_downward vZero vZero vZero qIdentity
    (by norm_num [qIdentity, Quat.normSq]) 1 (by norm_num)

/-- C9: the clamp makes the vector fed to `normalize` have strictly positive
length for every input, so the division inside normalization is never by
zero; at the fully degenerate input (mesh center equal to the model center)
the clamped vector is exactly `(0, 0.05, 0)`, normalization returns straight
up `(0, 1, 0)`, the stored direction under an identity parent rotation is
straight up, and the part position stays a finite translate of the original
position along the vertical axis. -/
theorem degenerate_explode_direction_is_straight_up :
    (∀ childCenter modelCtr : Vec3, 0 < (preNormExplodeDir childCenter modelCtr).length) ∧
    (∀ v : Vec3, preNormExplodeDir v v = ⟨0, 0.05, 0⟩) ∧
    (∀ v : Vec3, (preNormExplodeDir v v).normalize = ⟨0, 1, 0⟩) ∧
    (∀ v : Vec3, buildExplodeDirection v v qIdentity = ⟨0, 1, 0⟩) ∧
    (∀ v origPos : Vec3, ∀ t : ℝ,
      updateExplodePosition origPos (buildExplodeDirection v v qIdentity) t =
        ⟨origPos.x, origPos.y + t * EXPLODE_DISTANCE, origPos.z⟩) := by
  have hdeg : ∀ v : Vec3, preNormExplodeDir v v = ⟨0, 0.05, 0⟩ := by
    intro v
    unfold preNormExplodeDir
    have h0 : v.sub v = ⟨0, 0, 0⟩ := by ext <;> simp [Vec3.sub]
    rw [h0]
    ext <;> norm_num
  have hnorm : ∀ v : Vec3, (preNormExplodeDir v v).normalize = ⟨0, 1, 0⟩ := by
    intro v
    rw [hdeg v]
    have hlen : Vec3.length ⟨0, 0.05, 0⟩ = 0.05 := by
      unfold Vec3.length
      have : ((0 : ℝ) ^ 2 + (0.05 : ℝ) ^ 2 + (0 : ℝ) ^ 2) = (0.05 : ℝ) ^ 2 := by norm_num
      rw [this]
      exact Real.sqrt_sq (by norm_num)
    unfold Vec3.normalize
    rw [hlen, if_neg (by norm_num)]
    ext
    all_goals simp [Vec3.smul]
    norm_num
  have hdir : ∀ v : Vec3, buildExplodeDirection v v qIdentity = ⟨0, 1, 0⟩ := by
    intro v
    unfold buildExplodeDirection
    rw [hnorm v]
    ext <;> simp [applyQuaternion, Quat.conj, qIdentity]
  refine ⟨fun cc mc => preNormExplodeDir_length_pos cc mc, hdeg, hnorm, hdir, ?_⟩
  intro v origPos t
  rw [hdir v]
  ext <;> simp [updateExplodePosition, Vec3.add, Vec3.smul]

end Angl
